import Mathlib

/-!
Verification of the Amazon trace-header propagation core
(`propagation/amazon.go`): the serializer `MarshalAmazonTraceContext`,
the parser `UnmarshalAmazonTraceContext`, and the field-reconciliation
logic between them.

Go strings are modelled as `List Char` (`Str`). `strings.Split` and
`strings.SplitN(s, sep, 2)` for a one-character separator are modelled
by `splitOnChar` and `splitN2` with the same semantics (splitting the
empty string yields one empty field; `splitN2` splits at the first
separator only). The Go `map[string]interface{}` used for
`TraceContext` is modelled as an association list with overwriting
insert (`mapInsert`); since the only values the code ever stores are
strings, values are modelled as `Str`.
-/

/-- The model of a Go string: its list of characters. -/
abbrev Str := List Char

/-- Modelled from the spec: the external `PropagationContext` value object,
`PropagationContext{TraceID, ParentID, GrandParentID string; TraceContext map[string]interface{}}`.
The `TraceContext` map is modelled as an association list of string keys
to string values. -/
structure PropagationContext where
  TraceID : Str := []
  ParentID : Str := []
  GrandParentID : Str := []
  TraceContext : List (Str × Str) := []
deriving DecidableEq, Repr

/-- Modelled from the spec: the external validity predicate
`IsValid() bool` returning true iff `TraceID != "" && ParentID != ""`. -/
def PropagationContext.IsValid (p : PropagationContext) : Bool :=
  !p.TraceID.isEmpty && !p.ParentID.isEmpty

/-- Modelled from the spec: the external `PropagationError{message string, cause error}`
value; the cause is optional and the parser always passes `nil` for it. -/
structure PropagationError where
  message : Str
  cause : Option Str
deriving DecidableEq, Repr

/-- Prepends a character to the first field of a split result (helper
for the split functions below). -/
def consHead (x : Char) : List Str → List Str
  | [] => [[x]]
  | s :: rest => (x :: s) :: rest

/-- Model of Go `strings.Split(s, sep)` for a one-character separator:
splitting the empty string yields `[""]`, and each occurrence of the
separator starts a new field. -/
def splitOnChar (c : Char) : Str → List Str
  | [] => [[]]
  | x :: xs =>
    if x = c then [] :: splitOnChar c xs
    else consHead x (splitOnChar c xs)

/-- Model of Go `strings.SplitN(s, sep, 2)` for a one-character
separator: split at the first occurrence only, so the result has one
field (no separator present) or two fields (the second may contain
further separators). -/
def splitN2 (c : Char) : Str → List Str
  | [] => [[]]
  | x :: xs =>
    if x = c then [[], xs]
    else consHead x (splitN2 c xs)

/-- Model of Go `strings.ToLower` restricted to the ASCII range, which
is the only range the recognized keys use. -/
def lowerStr (s : Str) : Str := s.map Char.toLower

/-- Model of Go map assignment `m[k] = v`: overwrite the binding of `k`
if present, otherwise append it. -/
def mapInsert (k v : Str) : List (Str × Str) → List (Str × Str)
  | [] => [(k, v)]
  | (q, w) :: rest =>
    if q = k then (k, v) :: rest
    else (q, w) :: mapInsert k v rest

/-- The mutable state of the scanning loop of `UnmarshalAmazonTraceContext`:
the context being built plus the local variables `parent` and
`grandParent`. -/
structure ScanState where
  prop : PropagationContext
  parent : Str
  grandParent : Str
deriving DecidableEq, Repr

/-- The initial scan state: a fresh `PropagationContext` (with an empty
`TraceContext` map) and empty `parent` and `grandParent` locals. -/
def initState : ScanState := ⟨{}, [], []⟩

/-- One iteration of the segment loop of `UnmarshalAmazonTraceContext`:
split the segment at the first `=` (skipping it if there is none) and
dispatch on the lower-cased key. -/
def scanSegment (st : ScanState) (segment : Str) : ScanState :=
  match splitN2 '=' segment with
  | [key, v] =>
    if lowerStr key = ("self".data) then
      { st with prop := { st.prop with ParentID := v } }
    else if lowerStr key = ("root".data) then
      { st with prop := { st.prop with TraceID := v } }
    else if lowerStr key = ("parent".data) then
      { st with parent := v }
    else if lowerStr key = ("grandparent".data) then
      { st with grandParent := v }
    else
      { st with prop := { st.prop with
          TraceContext := mapInsert key v st.prop.TraceContext } }
  | _ => st

/-- The scanning phase of `UnmarshalAmazonTraceContext`: split the
header on `;` and run the segment loop. -/
def scanHeader (header : Str) : ScanState :=
  (splitOnChar ';' header).foldl scanSegment initState

/-- The reconciliation switch of `UnmarshalAmazonTraceContext`,
verbatim from the source: the three guarded cases, tried in order, over
`prop.ParentID` (from `self`), `parent` and `grandParent`. -/
def reconcile (st : ScanState) : PropagationContext :=
  if st.prop.ParentID = [] ∧ st.parent ≠ [] ∧ st.grandParent ≠ [] then
    { st.prop with ParentID := st.parent, GrandParentID := st.grandParent }
  else if st.prop.ParentID = [] ∧ st.parent ≠ [] then
    { st.prop with ParentID := st.parent }
  else if st.prop.ParentID ≠ [] ∧ st.parent ≠ [] then
    { st.prop with GrandParentID := st.parent }
  else
    st.prop

/-- The root-only fallback of `UnmarshalAmazonTraceContext`: if
`TraceID` is non-empty and `ParentID` is still empty, use `TraceID` as
the `ParentID` as well. -/
def applyRootFallback (prop : PropagationContext) : PropagationContext :=
  if prop.TraceID ≠ [] ∧ prop.ParentID = [] then
    { prop with ParentID := prop.TraceID }
  else
    prop

/-- The full context construction of `UnmarshalAmazonTraceContext`:
scan, reconcile, apply the root fallback. -/
def parseHeader (header : Str) : PropagationContext :=
  applyRootFallback (reconcile (scanHeader header))

/-- The error message format string of `UnmarshalAmazonTraceContext`. -/
def unableMsg : Str := ("unable to parse header into propagationcontext: ".data)

/-- Model of `UnmarshalAmazonTraceContext`: build the context, then
either return it (if valid) or return a `PropagationError` wrapping the
original header; no context accompanies the error. -/
def UnmarshalAmazonTraceContext (header : Str) :
    Except PropagationError PropagationContext :=
  let prop := parseHeader header
  if prop.IsValid then Except.ok prop
  else Except.error ⟨unableMsg ++ header, none⟩

/-- Model of `strings.Join(elems, ";")`. -/
def joinSemi : List Str → Str
  | [] => []
  | [s] => s
  | s :: rest => s ++ ';' :: joinSemi rest

/-- Model of `MarshalAmazonTraceContext`: a nil context serializes to
the empty string; otherwise build `Root=...;Parent=...`, append the
`GrandParent` segment when `GrandParentID` is non-empty, and append the
joined `TraceContext` entries when the map is non-empty. -/
def MarshalAmazonTraceContext : Option PropagationContext → Str
  | none => []
  | some prop =>
    let h := ("Root=".data) ++ prop.TraceID ++ (";Parent=".data) ++ prop.ParentID
    let h := if prop.GrandParentID ≠ [] then
        h ++ (";GrandParent=".data) ++ prop.GrandParentID
      else h
    if prop.TraceContext.length ≠ 0 then
      h ++ ';' :: joinSemi (prop.TraceContext.map (fun kv => kv.1 ++ '=' :: kv.2))
    else h

deriving instance DecidableEq for Except

/-! Helper lemmas about the split functions and the scanning loop. -/

theorem splitOnChar_not_mem {c : Char} {s : Str} (h : c ∉ s) :
    splitOnChar c s = [s] := by
  induction s with
  | nil => rfl
  | cons x xs ih =>
    rw [List.mem_cons, not_or] at h
    rw [splitOnChar, if_neg (by exact fun hx => h.1 hx.symm), ih h.2]
    rfl

theorem splitOnChar_ne_nil (c : Char) (s : Str) : splitOnChar c s ≠ [] := by
  induction s with
  | nil => simp [splitOnChar]
  | cons x xs ih =>
    rw [splitOnChar]
    split
    · simp
    · cases hs : splitOnChar c xs with
      | nil => exact absurd hs ih
      | cons s rest => simp [consHead]

theorem splitOnChar_sep (c : Char) (a b : Str) (h : c ∉ a) :
    splitOnChar c (a ++ c :: b) = a :: splitOnChar c b := by
  induction a with
  | nil => simp [splitOnChar]
  | cons x xs ih =>
    rw [List.mem_cons, not_or] at h
    rw [List.cons_append, splitOnChar, if_neg (by exact fun hx => h.1 hx.symm),
      ih h.2]
    rfl

theorem splitOnChar_append (c : Char) (a b : Str) :
    splitOnChar c (a ++ c :: b) = splitOnChar c a ++ splitOnChar c b := by
  induction a with
  | nil => simp [splitOnChar]
  | cons x xs ih =>
    rw [List.cons_append, splitOnChar, splitOnChar]
    split
    · rw [ih]; rfl
    · rw [ih]
      cases hs : splitOnChar c xs with
      | nil => exact absurd hs (splitOnChar_ne_nil c xs)
      | cons s rest => simp [consHead]

theorem splitN2_not_mem {c : Char} {s : Str} (h : c ∉ s) :
    splitN2 c s = [s] := by
  induction s with
  | nil => rfl
  | cons x xs ih =>
    rw [List.mem_cons, not_or] at h
    rw [splitN2, if_neg (by exact fun hx => h.1 hx.symm), ih h.2]
    rfl

theorem splitN2_sep (c : Char) (k v : Str) (h : c ∉ k) :
    splitN2 c (k ++ c :: v) = [k, v] := by
  induction k with
  | nil => simp [splitN2]
  | cons x xs ih =>
    rw [List.mem_cons, not_or] at h
    rw [List.cons_append, splitN2, if_neg (by exact fun hx => h.1 hx.symm),
      ih h.2]
    rfl

theorem scanSegment_skip (st : ScanState) {s : Str} (h : '=' ∉ s) :
    scanSegment st s = st := by
  rw [scanSegment, splitN2_not_mem h]

theorem foldl_scanSegment_skip (st : ScanState) (l1 l2 : List Str) {s : Str}
    (h : '=' ∉ s) :
    (l1 ++ s :: l2).foldl scanSegment st = (l1 ++ l2).foldl scanSegment st := by
  rw [List.foldl_append, List.foldl_append, List.foldl_cons,
    scanSegment_skip _ h]

theorem scanSegment_keyval (st : ScanState) (k v : Str) (h : '=' ∉ k) :
    scanSegment st (k ++ '=' :: v) =
      (if lowerStr k = ("self".data) then
        { st with prop := { st.prop with ParentID := v } }
      else if lowerStr k = ("root".data) then
        { st with prop := { st.prop with TraceID := v } }
      else if lowerStr k = ("parent".data) then
        { st with parent := v }
      else if lowerStr k = ("grandparent".data) then
        { st with grandParent := v }
      else
        { st with prop := { st.prop with
            TraceContext := mapInsert k v st.prop.TraceContext } }) := by
  rw [scanSegment, splitN2_sep _ _ _ h]

/-- Claim C1: after scanning all the segments of a header, the
reconciliation switch applies exactly one update, selected by the
emptiness of the `self` value (`prop.ParentID`), of `parent` and of
`grandParent`: both promoted when `self` is empty and both are present;
only `parent` promoted when `self` and `grandParent` are empty;
`parent` demoted to `GrandParentID` when `self` is present (regardless
of `grandParent`); and no change otherwise (that is, when `parent` is
empty). -/
theorem reconciliation_cases (header : Str) :
    ((scanHeader header).prop.ParentID = [] ∧ (scanHeader header).parent ≠ [] ∧
        (scanHeader header).grandParent ≠ [] →
      (reconcile (scanHeader header)).ParentID = (scanHeader header).parent ∧
        (reconcile (scanHeader header)).GrandParentID = (scanHeader header).grandParent) ∧
    ((scanHeader header).prop.ParentID = [] ∧ (scanHeader header).parent ≠ [] ∧
        (scanHeader header).grandParent = [] →
      (reconcile (scanHeader header)).ParentID = (scanHeader header).parent ∧
        (reconcile (scanHeader header)).GrandParentID = (scanHeader header).prop.GrandParentID) ∧
    ((scanHeader header).prop.ParentID ≠ [] ∧ (scanHeader header).parent ≠ [] →
      (reconcile (scanHeader header)).GrandParentID = (scanHeader header).parent ∧
        (reconcile (scanHeader header)).ParentID = (scanHeader header).prop.ParentID) ∧
    ((scanHeader header).parent = [] →
      (reconcile (scanHeader header)).ParentID = (scanHeader header).prop.ParentID ∧
        (reconcile (scanHeader header)).GrandParentID = (scanHeader header).prop.GrandParentID) := by
  refine ⟨fun h => ?_, fun h => ?_, fun h => ?_, fun h => ?_⟩
  · rw [reconcile, if_pos h]
    exact ⟨rfl, rfl⟩
  · rw [reconcile, if_neg (fun hc => hc.2.2 h.2.2), if_pos ⟨h.1, h.2.1⟩]
    exact ⟨rfl, rfl⟩
  · rw [reconcile, if_neg (fun hc => h.1 hc.1), if_neg (fun hc => h.1 hc.1),
      if_pos h]
    exact ⟨rfl, rfl⟩
  · rw [reconcile, if_neg (fun hc => hc.2.1 h), if_neg (fun hc => hc.2 h),
      if_neg (fun hc => hc.2 h)]
    exact ⟨rfl, rfl⟩

/-- Witness for C1: on `"Root=1-abc;Self=2-def;Parent=3-ghi"` the third
case fires, demoting the `Parent` value to `GrandParentID` while
`ParentID` keeps the `Self` value. -/
theorem reconciliation_cases_witness :
    ((scanHeader ("Root=1-abc;Self=2-def;Parent=3-ghi".data)).prop.ParentID ≠ [] ∧
      (scanHeader ("Root=1-abc;Self=2-def;Parent=3-ghi".data)).parent ≠ []) ∧
    (reconcile (scanHeader ("Root=1-abc;Self=2-def;Parent=3-ghi".data))).GrandParentID =
        (scanHeader ("Root=1-abc;Self=2-def;Parent=3-ghi".data)).parent ∧
      (reconcile (scanHeader ("Root=1-abc;Self=2-def;Parent=3-ghi".data))).ParentID =
        (scanHeader ("Root=1-abc;Self=2-def;Parent=3-ghi".data)).prop.ParentID :=
  ⟨by decide,
    (reconciliation_cases ("Root=1-abc;Self=2-def;Parent=3-ghi".data)).2.2.1 (by decide)⟩

/-- Claim C4: whenever reconciliation leaves `TraceID` non-empty and
`ParentID` empty, the parser sets `ParentID` to `TraceID` and (being
then valid) succeeds with that context. -/
theorem root_fallback (header : Str)
    (h1 : (reconcile (scanHeader header)).TraceID ≠ [])
    (h2 : (reconcile (scanHeader header)).ParentID = []) :
    UnmarshalAmazonTraceContext header =
      Except.ok ⟨(reconcile (scanHeader header)).TraceID,
        (reconcile (scanHeader header)).TraceID,
        (reconcile (scanHeader header)).GrandParentID,
        (reconcile (scanHeader header)).TraceContext⟩ := by
  have hfb : parseHeader header =
      (⟨(reconcile (scanHeader header)).TraceID,
        (reconcile (scanHeader header)).TraceID,
        (reconcile (scanHeader header)).GrandParentID,
        (reconcile (scanHeader header)).TraceContext⟩ : PropagationContext) := by
    rw [parseHeader, applyRootFallback]
    rw [if_pos ⟨h1, h2⟩]
  have hv : (parseHeader header).IsValid = true := by
    rw [hfb, PropagationContext.IsValid]
    simp only [Bool.and_eq_true, Bool.not_eq_true', List.isEmpty_eq_false]
    exact ⟨h1, h1⟩
  simp only [UnmarshalAmazonTraceContext]
  rw [if_pos hv, hfb]

/-- Witness for C4: parsing `"Root=1-abc"` (root only) succeeds with
`TraceID = ParentID = "1-abc"` and empty `GrandParentID`. -/
theorem root_fallback_witness :
    ((reconcile (scanHeader ("Root=1-abc".data))).TraceID ≠ [] ∧
      (reconcile (scanHeader ("Root=1-abc".data))).ParentID = []) ∧
    UnmarshalAmazonTraceContext ("Root=1-abc".data) =
      Except.ok ⟨"1-abc".data, "1-abc".data, [], []⟩ := by
  refine ⟨by decide, ?_⟩
  rw [root_fallback ("Root=1-abc".data) (by decide) (by decide)]
  decide

/-- Claim C8: serializing a nil (absent) context yields the empty
string; the serializer is a total function with no error outcome. -/
theorem marshal_nil : MarshalAmazonTraceContext none = [] := rfl

theorem isValid_iff (p : PropagationContext) :
    p.IsValid = true ↔ (p.TraceID ≠ [] ∧ p.ParentID ≠ []) := by
  rw [PropagationContext.IsValid]
  simp only [Bool.and_eq_true, Bool.not_eq_true', List.isEmpty_eq_false]

/-- Claim C3: the parser fails exactly when the reconciled context is
invalid: it returns a `PropagationError` whose message contains the
original header and carries no cause (and no context) if and only if
the constructed context has an empty `TraceID` or an empty `ParentID`;
in particular the empty header yields such an error. -/
theorem unmarshal_error_iff_invalid :
    (∀ header : Str,
      (∃ e : PropagationError,
        UnmarshalAmazonTraceContext header = Except.error e ∧
        (∃ pre suf : Str, e.message = pre ++ header ++ suf) ∧ e.cause = none) ↔
      ((parseHeader header).TraceID = [] ∨ (parseHeader header).ParentID = [])) ∧
    (∃ e : PropagationError,
      UnmarshalAmazonTraceContext [] = Except.error e ∧
      (∃ pre suf : Str, e.message = pre ++ [] ++ suf) ∧ e.cause = none) := by
  have main : ∀ header : Str,
      (∃ e : PropagationError,
        UnmarshalAmazonTraceContext header = Except.error e ∧
        (∃ pre suf : Str, e.message = pre ++ header ++ suf) ∧ e.cause = none) ↔
      ((parseHeader header).TraceID = [] ∨ (parseHeader header).ParentID = []) := by
    intro header
    constructor
    · rintro ⟨e, he, -, -⟩
      by_contra hcon
      push_neg at hcon
      have hv : (parseHeader header).IsValid = true := (isValid_iff _).mpr hcon
      simp only [UnmarshalAmazonTraceContext] at he
      rw [if_pos hv] at he
      exact Except.noConfusion he
    · intro h
      have hv : ¬ ((parseHeader header).IsValid = true) := by
        rw [isValid_iff]
        tauto
      refine ⟨⟨unableMsg ++ header, none⟩, ?_, ⟨unableMsg, [], by simp⟩, rfl⟩
      simp only [UnmarshalAmazonTraceContext]
      rw [if_neg hv]
  exact ⟨main, (main []).mpr (by decide)⟩

/-- Claim C5: the header is split on `;` into segments; a segment is
split at the first `=` only, so the value may itself contain `=`; and
a segment with no `=` is skipped without affecting the handling of the
remaining segments (inserting such a segment anywhere leaves the
constructed context unchanged). -/
theorem segment_handling :
    (∀ (k v : Str), '=' ∉ k → splitN2 '=' (k ++ '=' :: v) = [k, v]) ∧
    (∀ (st : ScanState) (s : Str), '=' ∉ s → scanSegment st s = st) ∧
    (∀ (h1 h2 s : Str), '=' ∉ s → ';' ∉ s →
      parseHeader (h1 ++ ';' :: (s ++ ';' :: h2)) = parseHeader (h1 ++ ';' :: h2)) := by
  refine ⟨fun k v hk => splitN2_sep '=' k v hk,
    fun st s hs => scanSegment_skip st hs, ?_⟩
  intro h1 h2 s hse hsc
  rw [parseHeader, parseHeader, scanHeader, scanHeader,
    splitOnChar_append ';' h1 (s ++ ';' :: h2), splitOnChar_sep ';' s h2 hsc,
    splitOnChar_append ';' h1 h2,
    foldl_scanSegment_skip initState (splitOnChar ';' h1) (splitOnChar ';' h2) hse]

/-- Witness for C5: the value part keeps a later `=`; the bare segment
`"malformed"` is skipped; and inserting `"malformed"` between two valid
segments leaves the constructed context unchanged. -/
theorem segment_handling_witness :
    ('=' ∉ ("a".data : Str) ∧ '=' ∉ ("malformed".data : Str) ∧
      ';' ∉ ("malformed".data : Str)) ∧
    splitN2 '=' (("a".data) ++ '=' :: ("b=c".data)) = [("a".data), ("b=c".data)] ∧
    scanSegment initState ("malformed".data) = initState ∧
    parseHeader (("Root=1".data) ++ ';' :: (("malformed".data) ++ ';' :: ("Self=2".data))) =
      parseHeader (("Root=1".data) ++ ';' :: ("Self=2".data)) :=
  ⟨by decide,
    segment_handling.1 ("a".data) ("b=c".data) (by decide),
    segment_handling.2.1 initState ("malformed".data) (by decide),
    segment_handling.2.2 ("Root=1".data) ("Self=2".data) ("malformed".data)
      (by decide) (by decide)⟩

/-- Claim C10: a recognized segment with an empty value leaves the
corresponding local value empty (for each of the four recognized keys),
and since reconciliation and the root fallback test presence by
non-emptiness only, `"Root=1-abc;Parent="` parses exactly like
`"Root=1-abc"`, succeeding with `ParentID = "1-abc"`. -/
theorem empty_valued_segments :
    (∀ st : ScanState, scanSegment st ("Self=".data) =
      { st with prop := { st.prop with ParentID := [] } }) ∧
    (∀ st : ScanState, scanSegment st ("Root=".data) =
      { st with prop := { st.prop with TraceID := [] } }) ∧
    (∀ st : ScanState, scanSegment st ("Parent=".data) = { st with parent := [] }) ∧
    (∀ st : ScanState, scanSegment st ("GrandParent=".data) =
      { st with grandParent := [] }) ∧
    UnmarshalAmazonTraceContext ("Root=1-abc;Parent=".data) =
      UnmarshalAmazonTraceContext ("Root=1-abc".data) ∧
    UnmarshalAmazonTraceContext ("Root=1-abc;Parent=".data) =
      Except.ok ⟨"1-abc".data, "1-abc".data, [], []⟩ := by
  refine ⟨fun st => rfl, fun st => rfl, fun st => rfl, fun st => rfl,
    by decide, by decide⟩

theorem joinSemi_cons (s : Str) (rest : List Str) :
    ';' :: joinSemi (s :: rest) = (';' :: s) ++ (rest.map (fun t => ';' :: t)).flatten := by
  induction rest generalizing s with
  | nil => simp [joinSemi]
  | cons s2 rest2 ih =>
    show ';' :: (s ++ ';' :: joinSemi (s2 :: rest2)) =
      (';' :: s) ++ ((s2 :: rest2).map (fun t => ';' :: t)).flatten
    rw [ih s2]
    simp [List.flatten]

/-- Claim C6: for every non-nil context the serialized header is
`Root=<TraceID>;Parent=<ParentID>`, followed by a `;GrandParent=...`
segment exactly when `GrandParentID` is non-empty, followed by one
`;key=value` segment per `TraceContext` entry. -/
theorem marshal_shape (prop : PropagationContext) :
    MarshalAmazonTraceContext (some prop) =
      (("Root=".data) ++ prop.TraceID ++ (";Parent=".data) ++ prop.ParentID) ++
      (if prop.GrandParentID = [] then [] else
        (";GrandParent=".data) ++ prop.GrandParentID) ++
      (prop.TraceContext.map (fun kv => ';' :: (kv.1 ++ '=' :: kv.2))).flatten := by
  rcases hTC : prop.TraceContext with _ | ⟨kv, rest⟩ <;>
    by_cases hg : prop.GrandParentID = [] <;>
      simp [MarshalAmazonTraceContext, hTC, hg, joinSemi_cons, List.map_map,
        Function.comp_def, List.append_assoc, List.flatten]

/-- Claim C7: a segment whose key lower-cases to `self`, `root`,
`parent` or `grandparent` is classified as that field whatever its
original casing, while a segment with any other key is stored in
`TraceContext` under the original-case key; in particular
`"root=1-abc;SELF=2-def"` parses identically to
`"Root=1-abc;Self=2-def"`. -/
theorem key_case_insensitive :
    (∀ (st : ScanState) (k v : Str), '=' ∉ k →
      (lowerStr k = ("self".data) →
        scanSegment st (k ++ '=' :: v) =
          { st with prop := { st.prop with ParentID := v } }) ∧
      (lowerStr k = ("root".data) →
        scanSegment st (k ++ '=' :: v) =
          { st with prop := { st.prop with TraceID := v } }) ∧
      (lowerStr k = ("parent".data) →
        scanSegment st (k ++ '=' :: v) = { st with parent := v }) ∧
      (lowerStr k = ("grandparent".data) →
        scanSegment st (k ++ '=' :: v) = { st with grandParent := v }) ∧
      (lowerStr k ≠ ("self".data) → lowerStr k ≠ ("root".data) →
        lowerStr k ≠ ("parent".data) → lowerStr k ≠ ("grandparent".data) →
        scanSegment st (k ++ '=' :: v) =
          { st with prop := { st.prop with
              TraceContext := mapInsert k v st.prop.TraceContext } })) ∧
    UnmarshalAmazonTraceContext ("root=1-abc;SELF=2-def".data) =
      UnmarshalAmazonTraceContext ("Root=1-abc;Self=2-def".data) := by
  refine ⟨fun st k v hk => ?_, by decide⟩
  rw [scanSegment_keyval st k v hk]
  refine ⟨fun h => ?_, fun h => ?_, fun h => ?_, fun h => ?_,
    fun h1 h2 h3 h4 => ?_⟩
  · rw [if_pos h]
  · rw [if_neg (by rw [h]; decide), if_pos h]
  · rw [if_neg (by rw [h]; decide), if_neg (by rw [h]; decide), if_pos h]
  · rw [if_neg (by rw [h]; decide), if_neg (by rw [h]; decide),
      if_neg (by rw [h]; decide), if_pos h]
  · rw [if_neg h1, if_neg h2, if_neg h3, if_neg h4]

/-- Witness for C7: the oddly cased key `"GRANDparent"` is still
classified as the grandparent field. -/
theorem key_case_insensitive_witness :
    ('=' ∉ ("GRANDparent".data : Str) ∧
      lowerStr ("GRANDparent".data) = ("grandparent".data)) ∧
    scanSegment initState (("GRANDparent".data) ++ '=' :: ("9-xyz".data)) =
      { initState with grandParent := "9-xyz".data } :=
  ⟨by decide,
    (key_case_insensitive.1 initState ("GRANDparent".data) ("9-xyz".data)
      (by decide)).2.2.2.1 (by decide)⟩

theorem not_mem_append_cons {c x : Char} {a b : Str} (ha : c ∉ a) (hx : c ≠ x)
    (hb : c ∉ b) : c ∉ a ++ x :: b := by
  intro hmem
  rcases List.mem_append.1 hmem with h | h
  · exact ha h
  · rcases List.mem_cons.1 h with h | h
    · exact hx h
    · exact hb h

/-- Counterexample to C2 as stated: the context with `TraceID = "1"`
and `ParentID = ";"` satisfies the claim's hypotheses, yet parsing its
serialization `"Root=1;Parent=;"` succeeds with `ParentID = "1"`, not
`";"` (the `;` inside the value starts a new segment). -/
theorem roundTrip_noGrandParent_cex :
    ¬ (∀ ctx : PropagationContext, ctx.TraceID ≠ [] → ctx.ParentID ≠ [] →
        ctx.GrandParentID = [] → ctx.TraceContext = [] →
        ∃ res : PropagationContext,
          UnmarshalAmazonTraceContext (MarshalAmazonTraceContext (some ctx)) =
            Except.ok res ∧
          res.TraceID = ctx.TraceID ∧ res.ParentID = ctx.ParentID) := by
  intro hclaim
  obtain ⟨res, hres, -, hpid⟩ :=
    hclaim ⟨"1".data, ";".data, [], []⟩ (by decide) (by decide) rfl rfl
  have heval : UnmarshalAmazonTraceContext (MarshalAmazonTraceContext
      (some (⟨"1".data, ";".data, [], []⟩ : PropagationContext))) =
      Except.ok ⟨"1".data, "1".data, [], []⟩ := by decide
  rw [heval] at hres
  injection hres with h
  rw [← h] at hpid
  exact absurd hpid (by decide)

/-- Claim C2 as amended: the round-trip restores `TraceID` and
`ParentID` for every context with empty `GrandParentID` and
`TraceContext` whose `TraceID` and `ParentID` are non-empty and free of
the separator `;`. -/
theorem roundTrip_noGrandParent (t p : Str) (ht : t ≠ []) (hp : p ≠ [])
    (htc : ';' ∉ t) (hpc : ';' ∉ p) :
    UnmarshalAmazonTraceContext
        (MarshalAmazonTraceContext (some ⟨t, p, [], []⟩)) =
      Except.ok ⟨t, p, [], []⟩ := by
  have hm : MarshalAmazonTraceContext (some ⟨t, p, [], []⟩) =
      (("Root".data) ++ '=' :: t) ++ ';' :: (("Parent".data) ++ '=' :: p) := by
    simp only [MarshalAmazonTraceContext]
    rw [if_neg (fun hc => hc rfl), if_neg (fun hc => hc rfl)]
    simp
  have hsplit : splitOnChar ';'
      ((("Root".data) ++ '=' :: t) ++ ';' :: (("Parent".data) ++ '=' :: p)) =
      [("Root".data) ++ '=' :: t, ("Parent".data) ++ '=' :: p] := by
    rw [splitOnChar_sep ';' _ _ (not_mem_append_cons (by decide) (by decide) htc),
      splitOnChar_not_mem (not_mem_append_cons (by decide) (by decide) hpc)]
  have h1 : scanSegment initState (("Root".data) ++ '=' :: t) =
      ⟨⟨t, [], [], []⟩, [], []⟩ := by
    rw [scanSegment_keyval initState ("Root".data) t (by decide),
      if_neg (by decide), if_pos (by decide)]
    rfl
  have h2 : scanSegment (⟨⟨t, [], [], []⟩, [], []⟩ : ScanState)
      (("Parent".data) ++ '=' :: p) = ⟨⟨t, [], [], []⟩, p, []⟩ := by
    rw [scanSegment_keyval _ ("Parent".data) p (by decide), if_neg (by decide),
      if_neg (by decide), if_pos (by decide)]
  have hrec : reconcile ⟨⟨t, [], [], []⟩, p, []⟩ = ⟨t, p, [], []⟩ := by
    rw [reconcile, if_neg (fun hc => hc.2.2 rfl), if_pos ⟨rfl, hp⟩]
  have hparse : parseHeader ((("Root".data) ++ '=' :: t) ++ ';' ::
      (("Parent".data) ++ '=' :: p)) = ⟨t, p, [], []⟩ := by
    rw [parseHeader, scanHeader, hsplit]
    simp only [List.foldl_cons, List.foldl_nil]
    rw [h1, h2, hrec, applyRootFallback, if_neg (fun hc => hp hc.2)]
  rw [hm]
  simp only [UnmarshalAmazonTraceContext]
  rw [hparse, if_pos ((isValid_iff _).mpr ⟨ht, hp⟩)]

/-- Witness for the amended C2 at `TraceID = "4-aaa"`,
`ParentID = "5-bbb"`. -/
theorem roundTrip_noGrandParent_witness :
    (("4-aaa".data : Str) ≠ [] ∧ ("5-bbb".data : Str) ≠ [] ∧
      ';' ∉ ("4-aaa".data : Str) ∧ ';' ∉ ("5-bbb".data : Str)) ∧
    UnmarshalAmazonTraceContext
        (MarshalAmazonTraceContext (some ⟨"4-aaa".data, "5-bbb".data, [], []⟩)) =
      Except.ok ⟨"4-aaa".data, "5-bbb".data, [], []⟩ :=
  ⟨by decide, roundTrip_noGrandParent ("4-aaa".data) ("5-bbb".data)
    (by decide) (by decide) (by decide) (by decide)⟩

/-- Counterexample to C9 as stated: the context with `TraceID = "7"`,
`ParentID = "8"` and `GrandParentID = ";"` satisfies the claim's
hypotheses, yet parsing its serialization `"Root=7;Parent=8;GrandParent=;"`
succeeds with an empty `GrandParentID`, not `";"`. -/
theorem roundTrip_withGrandParent_cex :
    ¬ (∀ ctx : PropagationContext, ctx.TraceID ≠ [] → ctx.ParentID ≠ [] →
        ctx.GrandParentID ≠ [] → ctx.TraceContext = [] →
        ∃ res : PropagationContext,
          UnmarshalAmazonTraceContext (MarshalAmazonTraceContext (some ctx)) =
            Except.ok res ∧
          res.TraceID = ctx.TraceID ∧ res.ParentID = ctx.ParentID ∧
          res.GrandParentID = ctx.GrandParentID) := by
  intro hclaim
  obtain ⟨res, hres, -, -, hgid⟩ :=
    hclaim ⟨"7".data, "8".data, ";".data, []⟩ (by decide) (by decide)
      (by decide) rfl
  have heval : UnmarshalAmazonTraceContext (MarshalAmazonTraceContext
      (some (⟨"7".data, "8".data, ";".data, []⟩ : PropagationContext))) =
      Except.ok ⟨"7".data, "8".data, [], []⟩ := by decide
  rw [heval] at hres
  injection hres with h
  rw [← h] at hgid
  exact absurd hgid (by decide)

/-- Claim C9 as amended: the round-trip restores `TraceID`, `ParentID`
and `GrandParentID` for every context with empty `TraceContext` whose
`TraceID`, `ParentID` and `GrandParentID` are non-empty and free of the
separator `;`. -/
theorem roundTrip_withGrandParent (t p g : Str) (ht : t ≠ []) (hp : p ≠ [])
    (hg : g ≠ []) (htc : ';' ∉ t) (hpc : ';' ∉ p) (hgc : ';' ∉ g) :
    UnmarshalAmazonTraceContext
        (MarshalAmazonTraceContext (some ⟨t, p, g, []⟩)) =
      Except.ok ⟨t, p, g, []⟩ := by
  have hm : MarshalAmazonTraceContext (some ⟨t, p, g, []⟩) =
      (("Root".data) ++ '=' :: t) ++ ';' ::
        ((("Parent".data) ++ '=' :: p) ++ ';' ::
          (("GrandParent".data) ++ '=' :: g)) := by
    simp only [MarshalAmazonTraceContext]
    rw [if_neg (fun hc => hc rfl), if_pos hg]
    simp
  have hsplit : splitOnChar ';'
      ((("Root".data) ++ '=' :: t) ++ ';' ::
        ((("Parent".data) ++ '=' :: p) ++ ';' ::
          (("GrandParent".data) ++ '=' :: g))) =
      [("Root".data) ++ '=' :: t, ("Parent".data) ++ '=' :: p,
        ("GrandParent".data) ++ '=' :: g] := by
    rw [splitOnChar_sep ';' _ _ (not_mem_append_cons (by decide) (by decide) htc),
      splitOnChar_sep ';' _ _ (not_mem_append_cons (by decide) (by decide) hpc),
      splitOnChar_not_mem (not_mem_append_cons (by decide) (by decide) hgc)]
  have h1 : scanSegment initState (("Root".data) ++ '=' :: t) =
      ⟨⟨t, [], [], []⟩, [], []⟩ := by
    rw [scanSegment_keyval initState ("Root".data) t (by decide),
      if_neg (by decide), if_pos (by decide)]
    rfl
  have h2 : scanSegment (⟨⟨t, [], [], []⟩, [], []⟩ : ScanState)
      (("Parent".data) ++ '=' :: p) = ⟨⟨t, [], [], []⟩, p, []⟩ := by
    rw [scanSegment_keyval _ ("Parent".data) p (by decide), if_neg (by decide),
      if_neg (by decide), if_pos (by decide)]
  have h3 : scanSegment (⟨⟨t, [], [], []⟩, p, []⟩ : ScanState)
      (("GrandParent".data) ++ '=' :: g) = ⟨⟨t, [], [], []⟩, p, g⟩ := by
    rw [scanSegment_keyval _ ("GrandParent".data) g (by decide),
      if_neg (by decide), if_neg (by decide), if_neg (by decide),
      if_pos (by decide)]
  have hrec : reconcile ⟨⟨t, [], [], []⟩, p, g⟩ = ⟨t, p, g, []⟩ := by
    rw [reconcile, if_pos ⟨rfl, hp, hg⟩]
  have hparse : parseHeader ((("Root".data) ++ '=' :: t) ++ ';' ::
      ((("Parent".data) ++ '=' :: p) ++ ';' ::
        (("GrandParent".data) ++ '=' :: g))) = ⟨t, p, g, []⟩ := by
    rw [parseHeader, scanHeader, hsplit]
    simp only [List.foldl_cons, List.foldl_nil]
    rw [h1, h2, h3, hrec, applyRootFallback, if_neg (fun hc => hp hc.2)]
  rw [hm]
  simp only [UnmarshalAmazonTraceContext]
  rw [hparse, if_pos ((isValid_iff _).mpr ⟨ht, hp⟩)]

/-- Witness for the amended C9 at `TraceID = "6-ccc"`,
`ParentID = "7-ddd"`, `GrandParentID = "8-eee"`. -/
theorem roundTrip_withGrandParent_witness :
    (("6-ccc".data : Str) ≠ [] ∧ ("7-ddd".data : Str) ≠ [] ∧
      ("8-eee".data : Str) ≠ [] ∧ ';' ∉ ("6-ccc".data : Str) ∧
      ';' ∉ ("7-ddd".data : Str) ∧ ';' ∉ ("8-eee".data : Str)) ∧
    UnmarshalAmazonTraceContext (MarshalAmazonTraceContext
        (some ⟨"6-ccc".data, "7-ddd".data, "8-eee".data, []⟩)) =
      Except.ok ⟨"6-ccc".data, "7-ddd".data, "8-eee".data, []⟩ :=
  ⟨by decide, roundTrip_withGrandParent ("6-ccc".data) ("7-ddd".data)
    ("8-eee".data) (by decide) (by decide) (by decide) (by decide) (by decide)
    (by decide)⟩

example : UnmarshalAmazonTraceContext ("Root=1-abc;Self=2-def;Parent=3-ghi".data) =
    Except.ok ⟨"1-abc".data, "2-def".data, "3-ghi".data, []⟩ := by decide

example : UnmarshalAmazonTraceContext ("Root=1-abc".data) =
    Except.ok ⟨"1-abc".data, "1-abc".data, [], []⟩ := by decide

example : UnmarshalAmazonTraceContext [] =
    Except.error ⟨unableMsg, none⟩ := by decide

example : MarshalAmazonTraceContext (some ⟨"1".data, "2".data, [], [("foo".data, "32".data)]⟩) =
    ("Root=1;Parent=2;foo=32".data) := by decide
